import Mathlib

/-!
# Verification of the ecommerce-k8s order-placement core

Shallow embedding of the two services of the repository:

* `products-service/index.js` — the Inventory Service: a product table and
  the stock-adjustment endpoint `PATCH /products/:id/stock`, which runs
  `UPDATE products SET stock = stock - $1 WHERE id = $2 RETURNING *`.
* `orders-service/index.js` — the Order Service: `POST /orders` (the Order
  Coordinator), `GET /orders/:id`, `GET /orders`, `PATCH /orders/:id/status`.

Modelling decisions, each forced by a line of the source:

* The JavaScript arithmetic in
  `items.reduce((sum, item) => sum + (item.price * item.quantity), 0)`
  is IEEE-754 binary64 arithmetic.  We model it exactly over fractions:
  `flRound` rounds a fraction to the nearest binary64-representable value
  (round-to-nearest, ties-to-even, 53-bit significand), assuming the
  normal finite range — which covers every value in this development —
  and each JavaScript `+` and `*` rounds its exact result once.
* A JavaScript number reaches Postgres as text: node-postgres serializes
  the double with `toString()`, the shortest decimal that reads back as
  the same double (`jsToString`, the ECMA-262 algorithm, closest then
  even among equals).  `total_amount` and `price` columns are
  `DECIMAL(10, 2)`: Postgres parses that text and rounds it to two
  decimal places, ties away from zero (`dec2`).  So a stored number is
  `dec2 (jsToString v)` of the binary64 value `v`.
* The `status` column is `VARCHAR(50)`: an update with a longer string
  throws in the store, the handler answers 500, and nothing is persisted
  (`updateStatus`).
* Fractions are an explicit numerator/denominator pair `Frac` (so a
  kernel-checked witness can evaluate every definition on concrete
  inputs); the `Frac.toRat_*` lemmas below ground its operations in
  Mathlib's `ℚ`.  All fractions built by the model have positive
  denominators.
* The SQL tables are lists in insertion order (rows of `orders` and
  `order_items` are only ever appended, and `UPDATE` keeps row identity),
  `SERIAL` columns are counters.  The `BEGIN`/`COMMIT`/`ROLLBACK`
  transaction of `POST /orders` covers only the orders database; the
  `axios.patch` stock call inside the loop hits the products database
  immediately and is not rolled back.  Sequence values consumed by a
  rolled-back transaction are not restored (Postgres sequences are
  non-transactional).
* Failure injection: `insertFail k` says the k-th `INSERT` of a
  `POST /orders` transaction throws (k = 0 the order header, k = i+1 the
  i-th item row); `netFail i` says the i-th `axios.patch` call fails in
  transport (the error is caught and logged by the inner `try`/`catch`, no
  store change).  A stock call for a nonexistent product is a 404 answered
  by the products service itself (`adjustStock` with no matching row).
* `POST /orders` additionally produces a trace of events (`Ev`), recording
  the order in which inserts, stock-adjustment calls, and
  commit/rollback happen, so temporal claims can be stated.
-/

/-! ## Exact fraction arithmetic -/

/-- A fraction `num / den`.  Every fraction constructed by the model has
`0 < den`; two fractions are equal as numbers when `beqv` holds. -/
structure Frac where
  num : Int
  den : Int
deriving DecidableEq

/-- Embed an integer. -/
def Frac.ofInt (n : Int) : Frac := ⟨n, 1⟩

/-- Exact addition. -/
def Frac.add (a b : Frac) : Frac := ⟨a.num * b.den + b.num * a.den, a.den * b.den⟩

/-- Exact multiplication. -/
def Frac.mul (a b : Frac) : Frac := ⟨a.num * b.num, a.den * b.den⟩

/-- Exact negation. -/
def Frac.neg (a : Frac) : Frac := ⟨-a.num, a.den⟩

/-- Exact subtraction. -/
def Frac.sub (a b : Frac) : Frac := a.add b.neg

/-- Value comparison `a < b` (for positive denominators). -/
def Frac.blt (a b : Frac) : Bool := a.num * b.den < b.num * a.den

/-- Value equality (for positive denominators). -/
def Frac.beqv (a b : Frac) : Bool := a.num * b.den == b.num * a.den

/-- Floor of a fraction (for a positive denominator): floor division. -/
def Frac.floor (a : Frac) : Int := Int.fdiv a.num a.den

/-- Multiply by `2 ^ k` for an integer `k`, exactly. -/
def Frac.mul2pow (a : Frac) (k : Int) : Frac :=
  if 0 ≤ k then ⟨a.num * ((2 ^ k.toNat : Nat) : Int), a.den⟩
  else ⟨a.num, a.den * ((2 ^ (-k).toNat : Nat) : Int)⟩

/-- Multiply by `10 ^ k` for an integer `k`, exactly. -/
def Frac.mul10pow (a : Frac) (k : Int) : Frac :=
  if 0 ≤ k then ⟨a.num * ((10 ^ k.toNat : Nat) : Int), a.den⟩
  else ⟨a.num, a.den * ((10 ^ (-k).toNat : Nat) : Int)⟩

/-- The rational value of a fraction. -/
def Frac.toRat (a : Frac) : ℚ := (a.num : ℚ) / (a.den : ℚ)

/-! ## Exact binary64 model -/

/-- Base-2 logarithm on `Nat`, structurally fuelled so that it reduces in
the kernel; `natLog2F` is exact for arguments below `2 ^ fuel`. -/
def natLog2F : Nat → Nat → Nat
  | 0, _ => 0
  | fuel + 1, n => if n ≤ 1 then 0 else natLog2F fuel (n / 2) + 1

/-- Floor base-2 logarithm `⌊log₂ n⌋`, exact for `n < 2 ^ 400` (every magnitude in this
development is far below that). -/
def natLog2 (n : Nat) : Nat := natLog2F 400 n

/-- Base-10 logarithm on `Nat`, structurally fuelled so that it reduces in
the kernel; exact for arguments below `10 ^ fuel`. -/
def natLog10F : Nat → Nat → Nat
  | 0, _ => 0
  | fuel + 1, n => if n ≤ 9 then 0 else natLog10F fuel (n / 10) + 1

/-- Floor base-10 logarithm `⌊log₁₀ n⌋`, exact for `n < 10 ^ 200`. -/
def natLog10 (n : Nat) : Nat := natLog10F 200 n

/-- For a positive fraction, the unique `t` with `10^t ≤ a < 10^(t+1)`. -/
def ilog10F (a : Frac) : Int :=
  let n := a.num.toNat
  let d := a.den.toNat
  let x := natLog10 n
  let y := natLog10 d
  if 10 ^ x * d ≤ 10 ^ y * n then (x : Int) - y else (x : Int) - y - 1

/-- For a positive fraction, the unique `e` with `2^e ≤ a < 2^(e+1)`. -/
def ilog2F (a : Frac) : Int :=
  let n := a.num.toNat
  let d := a.den.toNat
  let x := natLog2 n
  let y := natLog2 d
  if 2 ^ x * d ≤ 2 ^ y * n then (x : Int) - y else (x : Int) - y - 1

/-- Round a fraction (with positive denominator) to the nearest integer,
ties to even — the IEEE-754 default rounding. -/
def rnearEven (q : Frac) : Int :=
  let f := q.floor
  let rnum := q.num - f * q.den
  if 2 * rnum < q.den then f
  else if q.den < 2 * rnum then f + 1
  else if f % 2 = 0 then f else f + 1

/-- Round a fraction to the nearest IEEE-754 binary64 value (as an exact
fraction): round-to-nearest ties-to-even, 53-bit significand.  Faithful on
the normal finite range. -/
def flRound (q : Frac) : Frac :=
  if q.num = 0 then ⟨0, 1⟩
  else
    let aq : Frac := if q.num < 0 then q.neg else q
    let e : Int := ilog2F aq
    let m : Int := rnearEven (aq.mul2pow (52 - e))
    let r : Frac := Frac.mul2pow ⟨m, 1⟩ (e - 52)
    if q.num < 0 then r.neg else r

/-- One JavaScript `+` on numbers: exact sum, then binary64 rounding. -/
def flAdd (a b : Frac) : Frac := flRound (a.add b)

/-- One JavaScript `*` on numbers: exact product, then binary64 rounding. -/
def flMul (a b : Frac) : Frac := flRound (a.mul b)

/-- One step of the shortest-round-trip search of `Number::toString`: for
digit count `i` (and positive `q` with `10^t ≤ q < 10^(t+1)`), the two
`i`-significant-digit decimals straddling `q` are the only possible
shortest representations at this length; return the one whose binary64
rounding gives back `q` (preferring the closer, then the even mantissa, as
ECMA-262 prescribes), or recurse with one more digit.  `fuel` bounds the
digit count; 17 digits always suffice for a binary64 value, and on fuel
exhaustion the exact value is returned. -/
def jsShortestAux (q : Frac) (t : Int) : Nat → Nat → Frac
  | 0, _ => q
  | fuel + 1, i =>
      let g : Int := t - (i : Int) + 1
      let sf : Int := (q.mul10pow (-g)).floor
      let cand0 : Frac := (Frac.ofInt sf).mul10pow g
      let cand1 : Frac := (Frac.ofInt (sf + 1)).mul10pow g
      let v0 := (flRound cand0).beqv q
      let v1 := (flRound cand1).beqv q
      if v0 && v1 then
        let d0 := q.sub cand0
        let d1 := cand1.sub q
        if d0.blt d1 then cand0
        else if d1.blt d0 then cand1
        else if sf % 2 = 0 then cand0 else cand1
      else if v0 then cand0
      else if v1 then cand1
      else jsShortestAux q t fuel (i + 1)

/-- The numeric value of `Number.prototype.toString()` on a binary64
value: the shortest decimal that reads back (round-to-nearest,
ties-to-even) as the same double, closest-then-even among equals
(ECMA-262 6.1.6.1.20).  This is what node-postgres sends over the wire for
a JavaScript number parameter, and what Postgres then parses and rounds
into a `DECIMAL` column. -/
def jsToString (q : Frac) : Frac :=
  if q.num = 0 then ⟨0, 1⟩
  else
    let aq : Frac := if q.num < 0 then q.neg else q
    let t : Int := ilog10F aq
    let r : Frac := jsShortestAux aq t 17 1
    if q.num < 0 then r.neg else r

/-- Postgres `DECIMAL(10, 2)` storage: round to two decimal places, ties
away from zero (the `numeric` rounding rule). -/
def dec2 (q : Frac) : Frac :=
  let n : Frac := q.mul (Frac.ofInt 100)
  let f : Int := n.floor
  let rnum := n.num - f * n.den
  let i : Int :=
    if 2 * rnum < n.den then f
    else if n.den < 2 * rnum then f + 1
    else if n.num < 0 then f else f + 1
  ⟨i, 100⟩

/-! ## Data model -/

/-- One entry of the `items` array of a `POST /orders` body:
`{product_id, quantity, price}`.  `price` is the value of the JSON
number; the JavaScript side sees `flRound price`. -/
structure ItemReq where
  product_id : Nat
  quantity : Int
  price : Frac
deriving DecidableEq

/-- A row of the `products` table. -/
structure Product where
  id : Nat
  name : String
  description : String
  price : Frac
  stock : Int
deriving DecidableEq

/-- A row of the `orders` table. -/
structure Order where
  id : Nat
  total_amount : Frac
  status : String
  created_at : Nat
deriving DecidableEq

/-- A row of the `order_items` table. -/
structure OrderItem where
  id : Nat
  order_id : Nat
  product_id : Nat
  quantity : Int
  price : Frac
deriving DecidableEq

/-- The orders database: the two tables owned by the orders service and
their `SERIAL` counters. -/
structure OrderDB where
  orders : List Order
  order_items : List OrderItem
  nextOrderId : Nat
  nextItemId : Nat
deriving DecidableEq

/-- The products database owned by the products service. -/
structure ProdDB where
  products : List Product
  nextProductId : Nat
deriving DecidableEq

/-- The whole system state: both stores plus a logical clock standing in
for `CURRENT_TIMESTAMP`. -/
structure Sys where
  odb : OrderDB
  pdb : ProdDB
  clock : Nat
deriving DecidableEq

/-! ## Products service -/

/-- Query `SELECT * FROM products WHERE id = $1`, first row. -/
def findProduct (pdb : ProdDB) (pid : Nat) : Option Product :=
  pdb.products.find? (fun p => p.id == pid)

/-- Endpoint `PATCH /products/:id/stock`:
`UPDATE products SET stock = stock - $1 WHERE id = $2 RETURNING *`.
Returns 404 (`none`) and leaves the store unchanged when no row matches;
otherwise subtracts `qty` from the stock of every matching row,
unconditionally, and returns the updated row. -/
def adjustStock (pdb : ProdDB) (pid : Nat) (qty : Int) : Option Product × ProdDB :=
  match findProduct pdb pid with
  | none => (none, pdb)
  | some p =>
      (some { p with stock := p.stock - qty },
       { pdb with
          products := pdb.products.map fun r =>
            if r.id == pid then { r with stock := r.stock - qty } else r })

/-- Endpoint `POST /products`: insert a row and return it. -/
def createProduct (pdb : ProdDB) (name descr : String) (price : Frac) (stock : Int) :
    Product × ProdDB :=
  let p : Product := ⟨pdb.nextProductId, name, descr, dec2 (jsToString (flRound price)), stock⟩
  (p, ⟨pdb.products ++ [p], pdb.nextProductId + 1⟩)

/-- The stock of product `pid` as a reader of the products table sees it. -/
def stockOf (pdb : ProdDB) (pid : Nat) : Option Int :=
  (findProduct pdb pid).map (·.stock)

/-! ## Orders service: reads -/

/-- Endpoint `GET /orders/:id`: 404 (`none`) when no order has that id, otherwise
the order joined with `SELECT * FROM order_items WHERE order_id = $1`
(rows in insertion order: the table is append-only). -/
def getOrder (sys : Sys) (oid : Nat) : Option (Order × List OrderItem) :=
  match sys.odb.orders.find? (fun o => o.id == oid) with
  | none => none
  | some o => some (o, sys.odb.order_items.filter (fun it => it.order_id == oid))

/-- Endpoint `GET /orders`: `SELECT * FROM orders ORDER BY created_at DESC`. -/
def listOrders (sys : Sys) : List Order :=
  sys.odb.orders.mergeSort (fun a b => decide (b.created_at ≤ a.created_at))

/-! ## Orders service: status update -/

/-- Outcome of `PATCH /orders/:id/status`: HTTP 200 with the updated row,
404 when no row matched, or 500 when the query throws. -/
inductive USResult where
  | updated (o : Order)
  | notFound
  | storageError
deriving DecidableEq

/-- Endpoint `PATCH /orders/:id/status`:
`UPDATE orders SET status = $1 WHERE id = $2 RETURNING *`; 404 when no row
matched, otherwise the updated row.  The column is `VARCHAR(50)`: writing
a status longer than 50 characters makes the assignment throw, the handler
answers 500 and nothing is persisted.  (The length coercion is evaluated
per matched row — the parameter itself is typed as unconstrained varchar —
so an unmatched id still answers 404.) -/
def updateStatus (sys : Sys) (oid : Nat) (status : String) : USResult × Sys :=
  match sys.odb.orders.find? (fun o => o.id == oid) with
  | none => (.notFound, sys)
  | some o =>
      if status.length > 50 then (.storageError, sys)
      else
        (.updated { o with status := status },
         { sys with
            odb := { sys.odb with
              orders := sys.odb.orders.map fun r =>
                if r.id == oid then { r with status := status } else r } })

/-! ## Orders service: order creation -/

/-- Trace events of one `POST /orders` request. -/
inductive Ev where
  | evBegin : Ev
  | evInsertOrder (oid : Nat) : Ev
  | evInsertItem (idx : Nat) : Ev
  | evAdjust (pid : Nat) (qty : Int) : Ev
  | evCommit : Ev
  | evRollback : Ev
deriving DecidableEq

/-- Is the event an inventory-adjustment call? -/
def isAdjust : Ev → Bool
  | .evAdjust _ _ => true
  | _ => false

/-- Outcome of `POST /orders`: HTTP 201 with the committed order, 400, or
500.  HTTP 201 carries only the order header row (`RETURNING *` of the
header insert): nothing about the inventory-adjustment calls is part of
the response. -/
inductive COResult where
  | created (o : Order)
  | invalidRequest
  | storageError
deriving DecidableEq

/-- Result of one `POST /orders` request: the HTTP-level outcome, the event
trace, and the post-state. -/
structure COOut where
  result : COResult
  trace : List Ev
  sys : Sys
deriving DecidableEq

/-- The JavaScript total
`items.reduce((sum, item) => sum + (item.price * item.quantity), 0)`:
binary64 arithmetic, one rounding per `*` and per `+`, prices entering as
the doubles the JSON parser produced (integer quantities are exact
doubles). -/
def jsTotal (items : List ItemReq) : Frac :=
  items.foldl (fun s it => flAdd s (flMul (flRound it.price) (Frac.ofInt it.quantity)))
    (Frac.ofInt 0)

/-- The body of the `for (const item of items)` loop of `POST /orders`,
iterated: at item index `i` it attempts the `order_items` insert (which
throws when `insertFail (i+1)`), then issues the `axios.patch` stock call
(which always goes out; `netFail i` makes it fail in transport, a missing
product makes it a 404, and either error is caught and logged).  Returns
the trace of this part, the item rows inserted in the transaction, the
next `order_items` id, the products store as mutated by the calls, and
whether every insert succeeded. -/
def itemsLoop (oid : Nat) (insertFail netFail : Nat → Bool) :
    List ItemReq → Nat → Nat → ProdDB →
    List Ev × List OrderItem × Nat × ProdDB × Bool
  | [], _, nid, pdb => ([], [], nid, pdb, true)
  | it :: rest, i, nid, pdb =>
      if insertFail (i + 1) then ([], [], nid, pdb, false)
      else
        let row : OrderItem := ⟨nid, oid, it.product_id, it.quantity, dec2 (jsToString (flRound it.price))⟩
        let pdb1 : ProdDB :=
          if netFail i then pdb else (adjustStock pdb it.product_id it.quantity).2
        let out := itemsLoop oid insertFail netFail rest (i + 1) (nid + 1) pdb1
        (Ev.evInsertItem i :: Ev.evAdjust it.product_id it.quantity :: out.1,
         row :: out.2.1, out.2.2.1, out.2.2.2.1, out.2.2.2.2)

/-- Endpoint `POST /orders`, the Order Coordinator.  Follows the source line by
line: reject an empty (or missing) `items` array with 400; `BEGIN`;
compute the total with JavaScript number arithmetic; insert the order
header (`DECIMAL(10,2)` rounds the stored total, status `pending`); run
the item loop (item insert, then stock call, per item); `COMMIT` and
answer 201 with the header row, or on any insert failure `ROLLBACK` and
answer 500.  The products store keeps every adjustment already issued even
on rollback; consumed `SERIAL` values are not restored. -/
def createOrder (sys : Sys) (items : List ItemReq) (insertFail netFail : Nat → Bool) :
    COOut :=
  if items.isEmpty then ⟨.invalidRequest, [], sys⟩
  else
    let total := jsTotal items
    if insertFail 0 then
      ⟨.storageError, [Ev.evBegin, Ev.evRollback], sys⟩
    else
      let oid := sys.odb.nextOrderId
      let order : Order := ⟨oid, dec2 (jsToString total), "pending", sys.clock⟩
      let out := itemsLoop oid insertFail netFail items 0 sys.odb.nextItemId sys.pdb
      if out.2.2.2.2 then
        ⟨.created order,
         [Ev.evBegin, Ev.evInsertOrder oid] ++ out.1 ++ [Ev.evCommit],
         { odb := { orders := sys.odb.orders ++ [order],
                    order_items := sys.odb.order_items ++ out.2.1,
                    nextOrderId := oid + 1,
                    nextItemId := out.2.2.1 },
           pdb := out.2.2.2.1,
           clock := sys.clock + 1 }⟩
      else
        ⟨.storageError,
         [Ev.evBegin, Ev.evInsertOrder oid] ++ out.1 ++ [Ev.evRollback],
         { sys with
            odb := { sys.odb with nextOrderId := oid + 1, nextItemId := out.2.2.1 },
            pdb := out.2.2.2.1 }⟩

/-! ## The operations of the core as one step relation -/

/-- A state-changing operation of the core (reads are omitted: they do not
touch either store). -/
inductive Op where
  | opCreateOrder (items : List ItemReq) (insertFail netFail : Nat → Bool)
  | opAdjustStock (pid : Nat) (qty : Int)
  | opUpdateStatus (oid : Nat) (status : String)
  | opCreateProduct (name descr : String) (price : Frac) (stock : Int)

/-- Effect of one operation on the system state. -/
def step (sys : Sys) : Op → Sys
  | .opCreateOrder items f g => (createOrder sys items f g).sys
  | .opAdjustStock pid q => { sys with pdb := (adjustStock sys.pdb pid q).2 }
  | .opUpdateStatus oid st => (updateStatus sys oid st).2
  | .opCreateProduct n d pr s => { sys with pdb := (createProduct sys.pdb n d pr s).2 }

/-- Run a sequence of operations. -/
def run (sys : Sys) (ops : List Op) : Sys := ops.foldl step sys

/-! ## Reference functions for stating and proving the claims -/

/-- The trace segment produced by the item loop when no insert fails,
starting at item index `i`: per item, its insert then its adjustment
call. -/
def trOf : List ItemReq → Nat → List Ev
  | [], _ => []
  | it :: rest, i =>
      Ev.evInsertItem i :: Ev.evAdjust it.product_id it.quantity :: trOf rest (i + 1)

/-- The `order_items` rows the loop inserts for order `oid`, ids from
`nid`. -/
def rowsOf (oid : Nat) : List ItemReq → Nat → List OrderItem
  | [], _ => []
  | it :: rest, nid =>
      ⟨nid, oid, it.product_id, it.quantity, dec2 (jsToString (flRound it.price))⟩ :: rowsOf oid rest (nid + 1)

/-- The products store after the adjustment calls for the given items
(indices from `i`; `netFail` as in `itemsLoop`). -/
def adjustRun (g : Nat → Bool) : List ItemReq → Nat → ProdDB → ProdDB
  | [], _, pdb => pdb
  | it :: rest, i, pdb =>
      adjustRun g rest (i + 1)
        (if g i then pdb else (adjustStock pdb it.product_id it.quantity).2)

/-- Every stock-adjustment quantity an operation can send is nonnegative. -/
def opNonneg : Op → Bool
  | .opCreateOrder items _ _ => items.all (fun it => decide (0 ≤ it.quantity))
  | .opAdjustStock _ q => decide (0 ≤ q)
  | .opUpdateStatus _ _ => true
  | .opCreateProduct _ _ _ _ => true

/-- Modelled from the spec: the exact total
"sum of quantity×unit_price over all entries (fixed-point arithmetic, no
floating rounding)" — exact fraction arithmetic, no binary64 or storage
rounding anywhere.  Used to compare the spec's claim with what the code
computes. -/
def specExactTotal (items : List ItemReq) : Frac :=
  items.foldl (fun s it => s.add ((Frac.ofInt it.quantity).mul it.price)) (Frac.ofInt 0)

/-- Modelled from the spec: "the inventory stock-adjustment call for each
line item is issued only after the Order Store transaction has committed"
— in a trace, every adjustment call comes strictly after the commit
event. -/
@[reducible] def specAdjustsAfterCommit (t : List Ev) : Prop :=
  ∀ i < t.length, ∀ j < t.length,
    isAdjust (t.getD i Ev.evBegin) = true → t.getD j Ev.evBegin = Ev.evCommit → j < i

/-- No injected store fault: every insert and every adjustment call
succeeds. -/
def noFail : Nat → Bool := fun _ => false

/-- Fault injection hitting exactly insert number `k` (or call number
`k`). -/
def failAt (k : Nat) : Nat → Bool := fun j => j == k

/-- A seed-catalog product: `('Laptop', ..., 1299.99, 50)`. -/
def prodLaptop : Product := ⟨1, "Laptop", "High-performance laptop", ⟨129999, 100⟩, 50⟩

/-- A seed-catalog product: `('Smartphone', ..., 899.99, 100)`. -/
def prodPhone : Product := ⟨2, "Smartphone", "Latest smartphone model", ⟨89999, 100⟩, 100⟩

/-- A concrete base state for witnesses: two products from the seed
catalog, no orders yet. -/
def sysA : Sys := ⟨⟨[], [], 1, 1⟩, ⟨[prodLaptop, prodPhone], 3⟩, 0⟩

/-- A concrete committed order row. -/
def orderA : Order := ⟨1, ⟨2000, 100⟩, "pending", 0⟩

/-- A concrete state holding one committed order with one item. -/
def sysB : Sys :=
  ⟨⟨[orderA], [⟨1, 1, 1, 2, ⟨1000, 100⟩⟩], 2, 2⟩, ⟨[prodLaptop, prodPhone], 3⟩, 1⟩

/-! ## Grounding the fraction arithmetic in ℚ -/

/-- Lemma: `Frac.add` is exact rational addition. -/
theorem Frac.toRat_add (a b : Frac) (ha : a.den ≠ 0) (hb : b.den ≠ 0) :
    (a.add b).toRat = a.toRat + b.toRat := by
  have ha' : (a.den : ℚ) ≠ 0 := Int.cast_ne_zero.mpr ha
  have hb' : (b.den : ℚ) ≠ 0 := Int.cast_ne_zero.mpr hb
  simp only [Frac.add, Frac.toRat]
  push_cast
  field_simp

/-- Lemma: `Frac.mul` is exact rational multiplication. -/
theorem Frac.toRat_mul (a b : Frac) :
    (a.mul b).toRat = a.toRat * b.toRat := by
  simp only [Frac.mul, Frac.toRat]
  push_cast
  rw [div_mul_div_comm]

/-- Lemma: `Frac.neg` is exact rational negation. -/
theorem Frac.toRat_neg (a : Frac) : a.neg.toRat = -a.toRat := by
  simp [Frac.neg, Frac.toRat, neg_div]

/-- Lemma: `Frac.blt` decides the rational order (positive denominators). -/
theorem Frac.blt_iff (a b : Frac) (ha : 0 < a.den) (hb : 0 < b.den) :
    a.blt b = true ↔ a.toRat < b.toRat := by
  have ha' : (0 : ℚ) < (a.den : ℚ) := by exact_mod_cast ha
  have hb' : (0 : ℚ) < (b.den : ℚ) := by exact_mod_cast hb
  simp only [Frac.blt, Frac.toRat, decide_eq_true_eq]
  rw [div_lt_div_iff₀ ha' hb']
  constructor
  · intro h; exact_mod_cast h
  · intro h; exact_mod_cast h

/-- Lemma: `Frac.beqv` decides rational equality (positive denominators). -/
theorem Frac.beqv_iff (a b : Frac) (ha : 0 < a.den) (hb : 0 < b.den) :
    a.beqv b = true ↔ a.toRat = b.toRat := by
  have ha' : (a.den : ℚ) ≠ 0 := Int.cast_ne_zero.mpr ha.ne'
  have hb' : (b.den : ℚ) ≠ 0 := Int.cast_ne_zero.mpr hb.ne'
  simp only [Frac.beqv, Frac.toRat, beq_iff_eq]
  rw [div_eq_div_iff ha' hb']
  constructor
  · intro h; exact_mod_cast h
  · intro h; exact_mod_cast h

/-- Lemma: `Frac.mul2pow` is exact multiplication by a power of two. -/
theorem Frac.toRat_mul2pow (a : Frac) (k : Int) :
    (a.mul2pow k).toRat = a.toRat * (2 : ℚ) ^ k := by
  rcases le_or_lt 0 k with h | h
  · simp only [Frac.mul2pow, if_pos h, Frac.toRat]
    push_cast
    rw [← zpow_natCast (2 : ℚ) k.toNat, Int.toNat_of_nonneg h]
    ring
  · simp only [Frac.mul2pow, if_neg (not_le.mpr h), Frac.toRat]
    push_cast
    rw [show ((2 : ℚ) ^ k) = ((2 : ℚ) ^ (((-k).toNat : ℕ) : ℤ))⁻¹ by
      rw [← zpow_neg]
      congr 1
      omega]
    rw [zpow_natCast, ← div_eq_mul_inv, div_div]

/-- Lemma: `Frac.mul10pow` is exact multiplication by a power of ten. -/
theorem Frac.toRat_mul10pow (a : Frac) (k : Int) :
    (a.mul10pow k).toRat = a.toRat * (10 : ℚ) ^ k := by
  rcases le_or_lt 0 k with h | h
  · simp only [Frac.mul10pow, if_pos h, Frac.toRat]
    push_cast
    rw [← zpow_natCast (10 : ℚ) k.toNat, Int.toNat_of_nonneg h]
    ring
  · simp only [Frac.mul10pow, if_neg (not_le.mpr h), Frac.toRat]
    push_cast
    rw [show ((10 : ℚ) ^ k) = ((10 : ℚ) ^ (((-k).toNat : ℕ) : ℤ))⁻¹ by
      rw [← zpow_neg]
      congr 1
      omega]
    rw [zpow_natCast, ← div_eq_mul_inv, div_div]

/-- Lemma: `Frac.sub` is exact rational subtraction. -/
theorem Frac.toRat_sub (a b : Frac) (ha : a.den ≠ 0) (hb : b.den ≠ 0) :
    (a.sub b).toRat = a.toRat - b.toRat := by
  rw [Frac.sub, Frac.toRat_add a b.neg ha (by simpa [Frac.neg] using hb), Frac.toRat_neg]
  ring

/-! ## Characterizing the item loop -/

/-- When no insert in range fails, the item loop runs to completion:
its trace, rows, id counter, products store and success flag are exactly
the reference functions. -/
theorem itemsLoop_ok (oid : Nat) (f g : Nat → Bool) :
    ∀ (items : List ItemReq) (i nid : Nat) (pdb : ProdDB),
      (∀ j < items.length, f (i + j + 1) = false) →
      itemsLoop oid f g items i nid pdb =
        (trOf items i, rowsOf oid items nid, nid + items.length,
         adjustRun g items i pdb, true) := by
  intro items
  induction items with
  | nil =>
      intro i nid pdb _
      simp [itemsLoop, trOf, rowsOf, adjustRun]
  | cons it rest ih =>
      intro i nid pdb h
      have h0 : f (i + 1) = false := by
        have := h 0 (by simp)
        simpa using this
      have key := ih (i + 1) (nid + 1)
        (if g i then pdb else (adjustStock pdb it.product_id it.quantity).2)
        (by
          intro j hj
          have h' := h (j + 1) (by simpa using Nat.succ_lt_succ hj)
          have e : i + (j + 1) + 1 = i + 1 + j + 1 := by omega
          rwa [e] at h')
      simp only [itemsLoop, h0, Bool.false_eq_true, if_false, key, trOf, rowsOf, adjustRun,
        Prod.mk.injEq, List.length_cons, true_and, and_true]
      omega

/-- When the first failing insert is that of item `k` (the header and all
earlier item inserts succeed), the loop stops there: the trace, rows and
products-store effects are those of the first `k` items, and the flag
reports failure. -/
theorem itemsLoop_fail (oid : Nat) (f g : Nat → Bool) :
    ∀ (items : List ItemReq) (k i nid : Nat) (pdb : ProdDB),
      k < items.length →
      (∀ j < k, f (i + j + 1) = false) →
      f (i + k + 1) = true →
      itemsLoop oid f g items i nid pdb =
        (trOf (items.take k) i, rowsOf oid (items.take k) nid, nid + k,
         adjustRun g (items.take k) i pdb, false) := by
  intro items
  induction items with
  | nil =>
      intro k i nid pdb hk
      exact absurd hk (by simp)
  | cons it rest ih =>
      intro k i nid pdb hk hpre hfail
      cases k with
      | zero =>
          have h0 : f (i + 1) = true := by simpa using hfail
          simp [itemsLoop, h0, trOf, rowsOf, adjustRun]
      | succ k' =>
          have h0 : f (i + 1) = false := by
            have := hpre 0 (by omega)
            simpa using this
          have key := ih k' (i + 1) (nid + 1)
            (if g i then pdb else (adjustStock pdb it.product_id it.quantity).2)
            (by simpa using Nat.lt_of_succ_lt_succ hk)
            (by
              intro j hj
              have h' := hpre (j + 1) (by omega)
              have e : i + (j + 1) + 1 = i + 1 + j + 1 := by omega
              rwa [e] at h')
            (by
              have e : i + (k' + 1) + 1 = i + 1 + k' + 1 := by omega
              rwa [e] at hfail)
          simp only [itemsLoop, h0, Bool.false_eq_true, if_false, key, List.take_succ_cons,
            trOf, rowsOf, adjustRun, Prod.mk.injEq, true_and, and_true]
          omega

/-- The adjustment calls in the loop trace are exactly one call per item,
product id and quantity as submitted, in input order. -/
theorem trOf_filter_isAdjust :
    ∀ (items : List ItemReq) (i : Nat),
      (trOf items i).filter isAdjust
        = items.map (fun it => Ev.evAdjust it.product_id it.quantity) := by
  intro items
  induction items with
  | nil => intro i; simp [trOf]
  | cons it rest ih => intro i; simp [trOf, isAdjust, List.filter, ih]

/-- The loop trace contains no commit event. -/
theorem trOf_no_commit :
    ∀ (items : List ItemReq) (i : Nat), Ev.evCommit ∉ trOf items i := by
  intro items
  induction items with
  | nil => intro i; simp [trOf]
  | cons it rest ih =>
      intro i hmem
      simp only [trOf, List.mem_cons] at hmem
      rcases hmem with h | h | h
      · exact Ev.noConfusion h
      · exact Ev.noConfusion h
      · exact ih (i + 1) h

/-- The inserted rows carry the submitted product ids and quantities, in
input order, with the `DECIMAL(10,2)`-stored unit price. -/
theorem rowsOf_map_proj (oid : Nat) :
    ∀ (items : List ItemReq) (nid : Nat),
      (rowsOf oid items nid).map (fun r => (r.product_id, r.quantity, r.price))
        = items.map (fun it => (it.product_id, it.quantity, dec2 (jsToString (flRound it.price)))) := by
  intro items
  induction items with
  | nil => intro nid; simp [rowsOf]
  | cons it rest ih => intro nid; simp [rowsOf, ih]

/-- Every inserted row belongs to the order being created. -/
theorem rowsOf_order_id (oid : Nat) :
    ∀ (items : List ItemReq) (nid : Nat) (r : OrderItem),
      r ∈ rowsOf oid items nid → r.order_id = oid := by
  intro items
  induction items with
  | nil => intro nid r h; simp [rowsOf] at h
  | cons it rest ih =>
      intro nid r h
      simp only [rowsOf, List.mem_cons] at h
      rcases h with h | h
      · rw [h]
      · exact ih (nid + 1) r h

/-! ## Stock lemmas -/

/-- The stock update of `adjustStock` preserves row identity, so a lookup
through the updated table is the lookup through the old one, updated. -/
theorem find?_products_map (l : List Product) (pid : Nat) (q : Int) (pid0 : Nat) :
    (l.map fun r => if r.id == pid then { r with stock := r.stock - q } else r).find?
        (fun p => p.id == pid0)
      = (l.find? (fun p => p.id == pid0)).map
          (fun r => if r.id == pid then { r with stock := r.stock - q } else r) := by
  rw [List.find?_map]
  have hpred : ((fun p : Product => p.id == pid0) ∘ fun r =>
      if r.id == pid then { r with stock := r.stock - q } else r)
        = fun r : Product => r.id == pid0 := by
    funext r
    by_cases h : r.id == pid <;> simp [Function.comp, h]
  rw [hpred]

/-- Effect of one stock-adjustment call on any reader's view of any
product: the targeted product's stock drops by `q`, every other product is
untouched, and absence is preserved. -/
theorem stockOf_adjust (pdb : ProdDB) (pid : Nat) (q : Int) (pid0 : Nat) :
    stockOf (adjustStock pdb pid q).2 pid0
      = (stockOf pdb pid0).map (fun s => if pid0 = pid then s - q else s) := by
  by_cases hpp : pid0 = pid
  · subst hpp
    simp only [stockOf, adjustStock, findProduct]
    cases hfind : pdb.products.find? (fun p => p.id == pid0) with
    | none => simp [hfind]
    | some p =>
        simp only [hfind, find?_products_map, Option.map_map]
        have hid : p.id = pid0 := by simpa using (List.find?_eq_some.mp hfind).1
        simp [Function.comp, Option.map, hid]
  · simp only [stockOf, adjustStock, findProduct]
    cases hfind : pdb.products.find? (fun p => p.id == pid) with
    | none => simp [hpp, Function.comp_def]
    | some p =>
        simp only [find?_products_map, Option.map_map]
        cases hfind0 : pdb.products.find? (fun p => p.id == pid0) with
        | none => simp [Function.comp]
        | some r =>
            have hid : r.id = pid0 := by simpa using (List.find?_eq_some.mp hfind0).1
            have hne : ¬ r.id = pid := by rw [hid]; exact hpp
            simp [Function.comp, Option.map, hne, hpp]

/-- The stock calls of the item loop never raise any product's stock when
all quantities are nonnegative. -/
theorem stockOf_itemsLoop_le (oid : Nat) (f g : Nat → Bool) :
    ∀ (items : List ItemReq) (i nid : Nat) (pdb : ProdDB) (pid : Nat) (s : Int),
      (∀ it ∈ items, 0 ≤ it.quantity) →
      stockOf pdb pid = some s →
      ∃ s', stockOf (itemsLoop oid f g items i nid pdb).2.2.2.1 pid = some s' ∧ s' ≤ s := by
  intro items
  induction items with
  | nil =>
      intro i nid pdb pid s _ hs
      exact ⟨s, by simpa [itemsLoop] using hs, le_refl s⟩
  | cons it rest ih =>
      intro i nid pdb pid s hnn hs
      by_cases hf : f (i + 1)
      · exact ⟨s, by simpa [itemsLoop, hf] using hs, le_refl s⟩
      · have hq : 0 ≤ it.quantity := hnn it (by simp)
        have step1 : ∃ s1, stockOf
            (if g i then pdb else (adjustStock pdb it.product_id it.quantity).2) pid
              = some s1 ∧ s1 ≤ s := by
          by_cases hg : g i
          · exact ⟨s, by simpa [hg] using hs, le_refl s⟩
          · rw [if_neg hg, stockOf_adjust, hs]
            by_cases hp : pid = it.product_id
            · exact ⟨s - it.quantity, by simp [hp], by omega⟩
            · exact ⟨s, by simp [hp], le_refl s⟩
        obtain ⟨s1, hs1, hle1⟩ := step1
        obtain ⟨s', hs', hle'⟩ := ih (i + 1) (nid + 1) _ pid s1
          (fun x hx => hnn x (by simp [hx])) hs1
        refine ⟨s', ?_, le_trans hle' hle1⟩
        simpa [itemsLoop, hf] using hs'

/-- Appending a freshly created product does not change the view of a
product a reader could already see. -/
theorem stockOf_createProduct (pdb : ProdDB) (n d : String) (pr : Frac) (st : Int)
    (pid : Nat) (s : Int) (hs : stockOf pdb pid = some s) :
    stockOf (createProduct pdb n d pr st).2 pid = some s := by
  simp only [stockOf, findProduct, createProduct] at hs ⊢
  rw [List.find?_append]
  cases hfind : pdb.products.find? (fun p => p.id == pid) with
  | none => rw [hfind] at hs; simp at hs
  | some p => rw [hfind] at hs; simpa using hs

/-- No single core operation with nonnegative adjustment quantities makes
any product's stock strictly larger. -/
theorem stockOf_step_le (sys : Sys) (op : Op) (pid : Nat) (s : Int)
    (hop : opNonneg op = true) (hs : stockOf sys.pdb pid = some s) :
    ∃ s', stockOf (step sys op).pdb pid = some s' ∧ s' ≤ s := by
  cases op with
  | opCreateOrder items f g =>
      simp only [step, createOrder]
      by_cases he : items.isEmpty
      · exact ⟨s, by simpa [he] using hs, le_refl s⟩
      · by_cases hf : f 0
        · exact ⟨s, by simpa [he, hf] using hs, le_refl s⟩
        · have hop' : ∀ it ∈ items, 0 ≤ it.quantity := by
            simpa [opNonneg, List.all_eq_true] using hop
          obtain ⟨s', hs', hle⟩ :=
            stockOf_itemsLoop_le sys.odb.nextOrderId f g items 0 sys.odb.nextItemId
              sys.pdb pid s hop' hs
          refine ⟨s', ?_, hle⟩
          simp only [he, hf, Bool.false_eq_true, if_false]
          split <;> simpa using hs'
  | opAdjustStock pid1 q =>
      simp only [step, stockOf_adjust, hs, Option.map_some]
      by_cases hp : pid = pid1
      · have hq : 0 ≤ q := by simpa [opNonneg] using hop
        exact ⟨s - q, by simp [hp], by omega⟩
      · exact ⟨s, by simp [hp], le_refl s⟩
  | opUpdateStatus oid st =>
      refine ⟨s, ?_, le_refl s⟩
      simp only [step, updateStatus]
      cases sys.odb.orders.find? (fun o => o.id == oid) with
      | none => simpa using hs
      | some o =>
          by_cases hl : 50 < st.length
          · simpa [hl] using hs
          · simpa [hl] using hs
  | opCreateProduct n d pr st =>
      exact ⟨s, stockOf_createProduct sys.pdb n d pr st pid s hs, le_refl s⟩

/-- Over any operation sequence with nonnegative adjustment quantities, a
product's stock never increases. -/
theorem stockOf_run_le :
    ∀ (ops : List Op) (sys : Sys) (pid : Nat) (s : Int),
      (∀ op ∈ ops, opNonneg op = true) →
      stockOf sys.pdb pid = some s →
      ∃ s', stockOf (run sys ops).pdb pid = some s' ∧ s' ≤ s := by
  intro ops
  induction ops with
  | nil =>
      intro sys pid s _ hs
      exact ⟨s, hs, le_refl s⟩
  | cons op rest ih =>
      intro sys pid s hops hs
      obtain ⟨s1, hs1, hle1⟩ := stockOf_step_le sys op pid s (hops op (by simp)) hs
      obtain ⟨s', hs', hle'⟩ := ih (step sys op) pid s1
        (fun x hx => hops x (by simp [hx])) hs1
      exact ⟨s', hs', le_trans hle' hle1⟩

/-! ## Claim C7: the stock-adjustment endpoint -/

/-- C7: For every product_id and integer quantity, `AdjustStock` fails
with NotFound when no product with that id exists; otherwise it
unconditionally sets the product's stock to old stock minus quantity (no
floor check, so the result may be negative), returns the post-decrement
product, and leaves every other product's view unchanged. -/
theorem C7_adjustStock (pdb : ProdDB) (pid : Nat) (qty : Int) :
    (findProduct pdb pid = none → adjustStock pdb pid qty = (none, pdb)) ∧
    (∀ p, findProduct pdb pid = some p →
      (adjustStock pdb pid qty).1 = some { p with stock := p.stock - qty } ∧
      stockOf (adjustStock pdb pid qty).2 pid = some (p.stock - qty) ∧
      ∀ pid0, pid0 ≠ pid → stockOf (adjustStock pdb pid qty).2 pid0 = stockOf pdb pid0) := by
  constructor
  · intro hnone
    simp [adjustStock, hnone]
  · intro p hp
    refine ⟨by simp [adjustStock, hp], ?_, ?_⟩
    · rw [stockOf_adjust]
      have : stockOf pdb pid = some p.stock := by simp [stockOf, hp]
      simp [this]
    · intro pid0 hne
      rw [stockOf_adjust]
      cases h0 : stockOf pdb pid0 <;> simp [hne]

/-- Witness for C7 at a concrete store: product 1 exists with stock 50;
adjusting by 55 returns the post-decrement row and leaves stock −5
(negative, no floor check). -/
theorem C7_witness :
    findProduct sysA.pdb 1 = some prodLaptop ∧
    (adjustStock sysA.pdb 1 55).1 = some { prodLaptop with stock := prodLaptop.stock - 55 } ∧
    stockOf (adjustStock sysA.pdb 1 55).2 1 = some (prodLaptop.stock - 55) ∧
    prodLaptop.stock - 55 = -5 := by
  have h := (C7_adjustStock sysA.pdb 1 55).2 prodLaptop (by decide)
  exact ⟨by decide, h.1, h.2.1, by decide⟩

/-! ## Claim C8: stock monotonicity -/

/-- C8 counterexample: the claim says no core operation ever makes a
product's stock strictly larger, but a stock-adjustment call with a
negative quantity (nothing validates the sign, and the coordinator
forwards order quantities as-is) increases stock: adjusting product 1 by
−3 raises its stock from 50 to 53. -/
theorem C8_counterexample :
    stockOf (step sysA (Op.opAdjustStock 1 (-3))).pdb 1 = some 53 ∧
    stockOf sysA.pdb 1 = some 50 ∧ (50 : Int) < 53 := by
  refine ⟨by decide, by decide, by decide⟩

/-- C8 (amended): over every sequence of core operations whose
stock-adjustment quantities are all nonnegative, no product's stock ever
becomes strictly larger; only the adjustment path touches stock at all. -/
theorem C8_stock_never_increases (sys : Sys) (ops : List Op) (pid : Nat) (s s' : Int)
    (hops : ∀ op ∈ ops, opNonneg op = true)
    (h0 : stockOf sys.pdb pid = some s)
    (h1 : stockOf (run sys ops).pdb pid = some s') : s' ≤ s := by
  obtain ⟨s2, hs2, hle⟩ := stockOf_run_le ops sys pid s hops h0
  rw [h1] at hs2
  have : s' = s2 := by injection hs2
  omega

/-- Witness for C8 at a concrete run: an adjustment, an order creation and
a status update, all with nonnegative quantities, take product 1's stock
from 50 to 45 — not above 50. -/
theorem C8_witness :
    stockOf (run sysA [Op.opAdjustStock 1 2,
      Op.opCreateOrder [⟨1, 3, ⟨1000, 100⟩⟩] noFail noFail,
      Op.opUpdateStatus 1 "shipped"]).pdb 1 = some 45 ∧ (45 : Int) ≤ 50 := by
  refine ⟨by decide, ?_⟩
  exact C8_stock_never_increases sysA
    [Op.opAdjustStock 1 2, Op.opCreateOrder [⟨1, 3, ⟨1000, 100⟩⟩] noFail noFail,
     Op.opUpdateStatus 1 "shipped"] 1 50 45 (by decide) (by decide) (by decide)

/-! ## Claim C9: status update -/

/-- If some item insert in range fails, the loop reports failure. -/
theorem itemsLoop_not_ok (oid : Nat) (f g : Nat → Bool) :
    ∀ (items : List ItemReq) (i nid : Nat) (pdb : ProdDB),
      (∃ j < items.length, f (i + j + 1) = true) →
      (itemsLoop oid f g items i nid pdb).2.2.2.2 = false := by
  intro items
  induction items with
  | nil =>
      intro i nid pdb h
      obtain ⟨j, hj, _⟩ := h
      exact absurd hj (by simp)
  | cons it rest ih =>
      intro i nid pdb h
      by_cases hf : f (i + 1) = true
      · simp [itemsLoop, hf]
      · have hf' : f (i + 1) = false := by simpa using hf
        obtain ⟨j, hj, hfj⟩ := h
        cases j with
        | zero => exact absurd (by simpa using hfj) hf
        | succ j' =>
            have : (itemsLoop oid f g rest (i + 1) (nid + 1)
                (if g i then pdb else (adjustStock pdb it.product_id it.quantity).2)).2.2.2.2
                  = false := by
              refine ih (i + 1) (nid + 1) _ ⟨j', by simpa using Nat.lt_of_succ_lt_succ hj, ?_⟩
              have e : i + (j' + 1) + 1 = i + 1 + j' + 1 := by omega
              rwa [e] at hfj
            simp [itemsLoop, hf', this]

/-- C1: on a non-empty CreateOrder, if any insert of the transaction
fails, the call answers StorageError and the rollback leaves the `orders`
and `order_items` tables exactly as before: no row of the attempt is
visible to any reader. -/
theorem C1_rollback (sys : Sys) (items : List ItemReq) (f g : Nat → Bool)
    (hne : items ≠ []) (hfail : ∃ k ≤ items.length, f k = true) :
    (createOrder sys items f g).result = COResult.storageError ∧
    (createOrder sys items f g).sys.odb.orders = sys.odb.orders ∧
    (createOrder sys items f g).sys.odb.order_items = sys.odb.order_items := by
  have he : items.isEmpty = false := by
    cases items with
    | nil => exact absurd rfl hne
    | cons a l => rfl
  by_cases hf0 : f 0 = true
  · refine ⟨?_, ?_, ?_⟩ <;> simp [createOrder, he, hf0]
  · have hf0' : f 0 = false := by simpa using hf0
    obtain ⟨k, hk, hfk⟩ := hfail
    have hex : ∃ j < items.length, f (0 + j + 1) = true := by
      cases k with
      | zero => exact absurd hfk (by simp [hf0'])
      | succ j =>
          exact ⟨j, by omega, by rwa [show 0 + j + 1 = j + 1 by omega]⟩
    have hok := itemsLoop_not_ok sys.odb.nextOrderId f g items 0 sys.odb.nextItemId sys.pdb hex
    refine ⟨?_, ?_, ?_⟩ <;> simp [createOrder, he, hf0', hok]

/-- Witness for C1: two items, the second item's insert fails; the call
answers StorageError and both tables are unchanged. -/
theorem C1_witness :
    (createOrder sysA [⟨1, 2, ⟨1000, 100⟩⟩, ⟨2, 1, ⟨2000, 100⟩⟩] (failAt 2) noFail).result
      = COResult.storageError ∧
    (createOrder sysA [⟨1, 2, ⟨1000, 100⟩⟩, ⟨2, 1, ⟨2000, 100⟩⟩] (failAt 2) noFail).sys.odb.orders
      = sysA.odb.orders ∧
    (createOrder sysA [⟨1, 2, ⟨1000, 100⟩⟩, ⟨2, 1, ⟨2000, 100⟩⟩]
        (failAt 2) noFail).sys.odb.order_items
      = sysA.odb.order_items := by
  exact C1_rollback sysA [⟨1, 2, ⟨1000, 100⟩⟩, ⟨2, 1, ⟨2000, 100⟩⟩] (failAt 2) noFail
    (by decide) ⟨2, by decide, by decide⟩

/-- C3 counterexample: the claim says an entry with quantity ≤ 0 is
rejected with InvalidRequest, but the source only checks
`!items || items.length === 0`: a single-entry order with quantity 0 is
accepted, not answered with 400. -/
theorem C3_counterexample :
    (createOrder sysA [⟨1, 0, ⟨500, 100⟩⟩] noFail noFail).result ≠ COResult.invalidRequest ∧
    ([⟨1, 0, ⟨500, 100⟩⟩] : List ItemReq).any (fun it => decide (it.quantity ≤ 0)) = true := by
  exact ⟨by decide, by decide⟩

/-- C3 (amended): CreateOrder fails with InvalidRequest exactly when the
items sequence is empty or missing — per-entry quantity and price are not
validated — and on that failure nothing changes: the state is untouched
and the order count seen by ListOrders is unchanged. -/
theorem C3_validation (sys : Sys) (items : List ItemReq) (f g : Nat → Bool) :
    ((createOrder sys items f g).result = COResult.invalidRequest ↔ items = []) ∧
    (items = [] →
      (createOrder sys items f g).sys = sys ∧
      (listOrders (createOrder sys items f g).sys).length = (listOrders sys).length) := by
  constructor
  · constructor
    · intro h
      by_contra hne
      have he : items.isEmpty = false := by
        cases items with
        | nil => exact absurd rfl hne
        | cons a l => rfl
      by_cases hf0 : f 0 = true
      · simp [createOrder, he, hf0] at h
      · have hf0' : f 0 = false := by simpa using hf0
        simp only [createOrder, he, Bool.false_eq_true, if_false, hf0'] at h
        split at h <;> simp at h
    · intro h
      subst h
      rfl
  · intro h
    subst h
    exact ⟨rfl, rfl⟩

/-- Witness for C3: the empty order is refused with InvalidRequest and the
state (hence the ListOrders count) is unchanged. -/
theorem C3_witness :
    (createOrder sysA [] noFail noFail).result = COResult.invalidRequest ∧
    (createOrder sysA [] noFail noFail).sys = sysA ∧
    (listOrders (createOrder sysA [] noFail noFail).sys).length = (listOrders sysA).length := by
  exact ⟨(C3_validation sysA [] noFail noFail).1.mpr rfl,
    ((C3_validation sysA [] noFail noFail).2 rfl).1,
    ((C3_validation sysA [] noFail noFail).2 rfl).2⟩

/-! ## Claims C2, C4, C5: the successful CreateOrder path -/

/-- C2 counterexample: the claim says adjustment calls are issued only
after the Order Store transaction has committed, but in the source the
`axios.patch` call sits inside the `for` loop between the item inserts,
before `COMMIT`: on a successful one-item order the adjustment event
precedes the commit event in the trace. -/
theorem C2_counterexample :
    (createOrder sysA [⟨1, 2, ⟨1000, 100⟩⟩] noFail noFail).result
      = COResult.created ⟨1, ⟨2000, 100⟩, "pending", 0⟩ ∧
    ¬ specAdjustsAfterCommit (createOrder sysA [⟨1, 2, ⟨1000, 100⟩⟩] noFail noFail).trace := by
  exact ⟨by decide, by decide⟩

/-- C2 (amended): within one successful CreateOrder call the adjustment
calls are issued in the input items' order, but each is issued inside the
Order Store transaction, interleaved with the item inserts, strictly
before the commit. -/
theorem C2_adjust_order_before_commit (sys : Sys) (items : List ItemReq) (f g : Nat → Bool)
    (hne : items ≠ []) (hok : ∀ k < items.length + 1, f k = false) :
    ∃ pre, (createOrder sys items f g).trace = pre ++ [Ev.evCommit] ∧
      pre.filter isAdjust = items.map (fun it => Ev.evAdjust it.product_id it.quantity) ∧
      Ev.evCommit ∉ pre := by
  have he : items.isEmpty = false := by
    cases items with
    | nil => exact absurd rfl hne
    | cons a l => rfl
  have hf0 : f 0 = false := hok 0 (by omega)
  have hloop := itemsLoop_ok sys.odb.nextOrderId f g items 0 sys.odb.nextItemId sys.pdb
    (fun j hj => by have := hok (j + 1) (by omega); simpa using this)
  refine ⟨[Ev.evBegin, Ev.evInsertOrder sys.odb.nextOrderId] ++ trOf items 0, ?_, ?_, ?_⟩
  · simp [createOrder, he, hf0, hloop]
  · simp [List.filter_append, trOf_filter_isAdjust, isAdjust]
  · intro hmem
    rcases List.mem_append.mp hmem with h | h
    · simp at h
    · exact trOf_no_commit items 0 h

/-- Witness for C2 (amended) on a concrete one-item order: the trace ends
with the commit, and the adjustment call sits in the pre-commit segment,
in input order. -/
theorem C2_witness :
    (createOrder sysA [⟨2, 3, ⟨2000, 100⟩⟩] noFail noFail).trace
      = [Ev.evBegin, Ev.evInsertOrder 1, Ev.evInsertItem 0, Ev.evAdjust 2 3]
          ++ [Ev.evCommit] ∧
    [Ev.evBegin, Ev.evInsertOrder 1, Ev.evInsertItem 0, Ev.evAdjust 2 3].filter isAdjust
      = ([⟨2, 3, ⟨2000, 100⟩⟩] : List ItemReq).map
          (fun it => Ev.evAdjust it.product_id it.quantity) ∧
    Ev.evCommit ∉ [Ev.evBegin, Ev.evInsertOrder 1, Ev.evInsertItem 0, Ev.evAdjust 2 3] := by
  obtain ⟨pre, h1, h2, h3⟩ :=
    C2_adjust_order_before_commit sysA [⟨2, 3, ⟨2000, 100⟩⟩] noFail noFail (by decide) (by decide)
  exact ⟨by decide, by decide, by decide⟩

/-- C4 counterexample: the claim says the total is the exact sum of
quantity×unit_price for every valid item sequence, with no rounding.  A
single entry of quantity 1 at unit price 0.001 (nonnegative, so valid by
the claim's own validation rule) yields a stored and returned
total_amount of 0.00 — the binary64 sum passed through `DECIMAL(10,2)`
storage — which differs from the exact sum 0.001. -/
theorem C4_counterexample :
    (createOrder sysA [⟨1, 1, ⟨1, 1000⟩⟩] noFail noFail).result
      = COResult.created ⟨1, ⟨0, 100⟩, "pending", 0⟩ ∧
    Frac.beqv ⟨0, 100⟩ (specExactTotal [⟨1, 1, ⟨1, 1000⟩⟩]) = false := by
  exact ⟨by decide, by decide⟩

/-- C4 (amended): for every non-empty item sequence whose inserts succeed,
the returned committed order's total_amount is the `DECIMAL(10,2)`
rounding of the driver's shortest-decimal (`toString`) serialization of
the binary64 floating-point sum of price×quantity — which on two-decimal
prices such as the claim's example (2 × 1299.99 = 2599.98, see the
witness) coincides with the exact sum, but in general need not. -/
theorem C4_total_binary64 (sys : Sys) (items : List ItemReq) (f g : Nat → Bool)
    (hne : items ≠ []) (hok : ∀ k < items.length + 1, f k = false) :
    (createOrder sys items f g).result
      = COResult.created ⟨sys.odb.nextOrderId, dec2 (jsToString (jsTotal items)), "pending", sys.clock⟩ ∧
    (⟨sys.odb.nextOrderId, dec2 (jsToString (jsTotal items)), "pending", sys.clock⟩ : Order)
      ∈ (createOrder sys items f g).sys.odb.orders := by
  have he : items.isEmpty = false := by
    cases items with
    | nil => exact absurd rfl hne
    | cons a l => rfl
  have hf0 : f 0 = false := hok 0 (by omega)
  have hloop := itemsLoop_ok sys.odb.nextOrderId f g items 0 sys.odb.nextItemId sys.pdb
    (fun j hj => by have := hok (j + 1) (by omega); simpa using this)
  constructor
  · simp [createOrder, he, hf0, hloop]
  · simp [createOrder, he, hf0, hloop]

/-- Witness for C4 (amended), the claim's own example: one entry of
quantity 2 at unit price 1299.99 gives total_amount 2599.98 exactly, and
here the stored total agrees with the exact sum.  The last two conjuncts
show the serialization step is material: at price 1.005 the program
stores 1.01 (the driver serializes the double as the shortest round-trip
decimal "1.005", which `DECIMAL(10,2)` rounds half away from zero), while
rounding the exact binary64 value — which lies strictly below 1.005 —
would give 1.00. -/
theorem C4_witness :
    (createOrder sysA [⟨1, 2, ⟨129999, 100⟩⟩] noFail noFail).result
      = COResult.created ⟨1, dec2 (jsToString (jsTotal [⟨1, 2, ⟨129999, 100⟩⟩])), "pending", 0⟩ ∧
    dec2 (jsToString (jsTotal [⟨1, 2, ⟨129999, 100⟩⟩])) = ⟨259998, 100⟩ ∧
    Frac.beqv ⟨259998, 100⟩ (specExactTotal [⟨1, 2, ⟨129999, 100⟩⟩]) = true ∧
    dec2 (jsToString (jsTotal [⟨1, 1, ⟨1005, 1000⟩⟩])) = ⟨101, 100⟩ ∧
    dec2 (jsTotal [⟨1, 1, ⟨1005, 1000⟩⟩]) = ⟨100, 100⟩ := by
  have h := C4_total_binary64 sysA [⟨1, 2, ⟨129999, 100⟩⟩] noFail noFail (by decide) (by decide)
  exact ⟨h.1, by decide, by decide, by decide, by decide⟩

/-- C5: when every insert succeeds, the call returns HTTP 201 with the
committed order no matter which adjustment calls fail (`g` is arbitrary:
transport failures, and missing products are handled inside
`adjustStock`): nothing is rolled back, exactly one adjustment call per
item is issued (no retries), in input order, and the response carries
only the order. -/
theorem C5_adjust_failures_ignored (sys : Sys) (items : List ItemReq) (f g : Nat → Bool)
    (hne : items ≠ []) (hok : ∀ k < items.length + 1, f k = false) :
    (createOrder sys items f g).result
      = COResult.created ⟨sys.odb.nextOrderId, dec2 (jsToString (jsTotal items)), "pending", sys.clock⟩ ∧
    (⟨sys.odb.nextOrderId, dec2 (jsToString (jsTotal items)), "pending", sys.clock⟩ : Order)
      ∈ (createOrder sys items f g).sys.odb.orders ∧
    (createOrder sys items f g).trace.filter isAdjust
      = items.map (fun it => Ev.evAdjust it.product_id it.quantity) ∧
    (createOrder sys items f g).sys.odb.order_items
      = sys.odb.order_items ++ rowsOf sys.odb.nextOrderId items sys.odb.nextItemId := by
  have he : items.isEmpty = false := by
    cases items with
    | nil => exact absurd rfl hne
    | cons a l => rfl
  have hf0 : f 0 = false := hok 0 (by omega)
  have hloop := itemsLoop_ok sys.odb.nextOrderId f g items 0 sys.odb.nextItemId sys.pdb
    (fun j hj => by have := hok (j + 1) (by omega); simpa using this)
  refine ⟨?_, ?_, ?_, ?_⟩
  · simp [createOrder, he, hf0, hloop]
  · simp [createOrder, he, hf0, hloop]
  · simp [createOrder, he, hf0, hloop, List.filter_append, trOf_filter_isAdjust, isAdjust]
  · simp [createOrder, he, hf0, hloop]

set_option maxRecDepth 8000 in
/-- Witness for C5: three items; the first item's adjustment fails in
transport and the second targets a product id (7) that does not exist, yet
the call returns 201 with the committed 55.00 order, all three adjustment
calls are issued, and only the third changes stock (product 2: 100 → 98;
product 1 stays 50). -/
theorem C5_witness :
    (createOrder sysA
        [⟨1, 1, ⟨1000, 100⟩⟩, ⟨7, 1, ⟨500, 100⟩⟩, ⟨2, 2, ⟨2000, 100⟩⟩]
        noFail (failAt 0)).result
      = COResult.created ⟨1, dec2 (jsToString (jsTotal
          [⟨1, 1, ⟨1000, 100⟩⟩, ⟨7, 1, ⟨500, 100⟩⟩, ⟨2, 2, ⟨2000, 100⟩⟩])), "pending", 0⟩ ∧
    dec2 (jsToString (jsTotal [⟨1, 1, ⟨1000, 100⟩⟩, ⟨7, 1, ⟨500, 100⟩⟩, ⟨2, 2, ⟨2000, 100⟩⟩]))
      = ⟨5500, 100⟩ ∧
    (createOrder sysA [⟨1, 1, ⟨1000, 100⟩⟩, ⟨7, 1, ⟨500, 100⟩⟩, ⟨2, 2, ⟨2000, 100⟩⟩]
        noFail (failAt 0)).trace.filter isAdjust
      = [Ev.evAdjust 1 1, Ev.evAdjust 7 1, Ev.evAdjust 2 2] ∧
    stockOf (createOrder sysA [⟨1, 1, ⟨1000, 100⟩⟩, ⟨7, 1, ⟨500, 100⟩⟩, ⟨2, 2, ⟨2000, 100⟩⟩]
        noFail (failAt 0)).sys.pdb 1 = some 50 ∧
    stockOf (createOrder sysA [⟨1, 1, ⟨1000, 100⟩⟩, ⟨7, 1, ⟨500, 100⟩⟩, ⟨2, 2, ⟨2000, 100⟩⟩]
        noFail (failAt 0)).sys.pdb 2 = some 98 := by
  have h := C5_adjust_failures_ignored sysA
    [⟨1, 1, ⟨1000, 100⟩⟩, ⟨7, 1, ⟨500, 100⟩⟩, ⟨2, 2, ⟨2000, 100⟩⟩]
    noFail (failAt 0) (by decide) (by decide)
  exact ⟨h.1, by decide, by decide, by decide, by decide⟩

/-! ## Claim C6: reading an order with its items -/

/-- C6: `GetOrder(id)` answers NotFound exactly when no order with that id
exists; and reading back a freshly created order (fresh ids, as the
`SERIAL` columns guarantee in the real store) returns that order joined
with exactly its rows, carrying the submitted product ids and quantities
in the submitted order, with the stored unit prices. -/
theorem C6_getOrder (sys : Sys) (oid : Nat) :
    (getOrder sys oid = none ↔ ∀ o ∈ sys.odb.orders, o.id ≠ oid) ∧
    (∀ (items : List ItemReq) (f g : Nat → Bool), items ≠ [] →
      (∀ k < items.length + 1, f k = false) →
      (∀ o ∈ sys.odb.orders, o.id ≠ sys.odb.nextOrderId) →
      (∀ r ∈ sys.odb.order_items, r.order_id ≠ sys.odb.nextOrderId) →
      oid = sys.odb.nextOrderId →
      getOrder (createOrder sys items f g).sys oid
          = some (⟨oid, dec2 (jsToString (jsTotal items)), "pending", sys.clock⟩,
                  rowsOf oid items sys.odb.nextItemId) ∧
      (rowsOf oid items sys.odb.nextItemId).map (fun r => (r.product_id, r.quantity, r.price))
        = items.map (fun it => (it.product_id, it.quantity, dec2 (jsToString (flRound it.price))))) := by
  constructor
  · simp only [getOrder]
    cases hfind : sys.odb.orders.find? (fun o => o.id == oid) with
    | none =>
        simp only [List.find?_eq_none] at hfind
        simpa using hfind
    | some o =>
        have hid : o.id = oid := by simpa using (List.find?_eq_some.mp hfind).1
        have hmem : o ∈ sys.odb.orders := List.mem_of_find?_eq_some hfind
        constructor
        · intro h; exact absurd h (by simp)
        · intro h; exact absurd hid (h o hmem)
  · intro items f g hne hok hfresho hfreshi hoid
    have he : items.isEmpty = false := by
      cases items with
      | nil => exact absurd rfl hne
      | cons a l => rfl
    have hf0 : f 0 = false := hok 0 (by omega)
    have hloop := itemsLoop_ok sys.odb.nextOrderId f g items 0 sys.odb.nextItemId sys.pdb
      (fun j hj => by have := hok (j + 1) (by omega); simpa using this)
    refine ⟨?_, rowsOf_map_proj sys.odb.nextOrderId items sys.odb.nextItemId ▸ ?_⟩
    · subst hoid
      have hfind0 : sys.odb.orders.find? (fun o => o.id == sys.odb.nextOrderId) = none := by
        rw [List.find?_eq_none]
        intro o ho
        simpa using hfresho o ho
      have hfilter0 :
          sys.odb.order_items.filter (fun it => it.order_id == sys.odb.nextOrderId) = [] := by
        rw [List.filter_eq_nil_iff]
        intro r hr
        simpa using hfreshi r hr
      have hfilter1 :
          (rowsOf sys.odb.nextOrderId items sys.odb.nextItemId).filter
              (fun it => it.order_id == sys.odb.nextOrderId)
            = rowsOf sys.odb.nextOrderId items sys.odb.nextItemId := by
        rw [List.filter_eq_self]
        intro r hr
        simpa using rowsOf_order_id sys.odb.nextOrderId items sys.odb.nextItemId r hr
      simp [getOrder, createOrder, he, hf0, hloop, List.find?_append, hfind0,
        List.filter_append, hfilter0, hfilter1]
    · subst hoid
      rfl

/-- Witness for C6 at a concrete state: a missing id answers NotFound, and
a fresh two-item order reads back with its rows in submitted order. -/
theorem C6_witness :
    getOrder sysB 5 = none ∧
    getOrder (createOrder sysB [⟨1, 1, ⟨1000, 100⟩⟩, ⟨2, 2, ⟨2000, 100⟩⟩] noFail noFail).sys 2
      = some (⟨2, dec2 (jsToString (jsTotal [⟨1, 1, ⟨1000, 100⟩⟩, ⟨2, 2, ⟨2000, 100⟩⟩])), "pending",
              sysB.clock⟩,
              rowsOf 2 [⟨1, 1, ⟨1000, 100⟩⟩, ⟨2, 2, ⟨2000, 100⟩⟩] 2) ∧
    (rowsOf 2 [⟨1, 1, ⟨1000, 100⟩⟩, ⟨2, 2, ⟨2000, 100⟩⟩] 2).map
        (fun r => (r.product_id, r.quantity)) = [(1, (1 : Int)), (2, 2)] := by
  have h := (C6_getOrder sysB 2).2 [⟨1, 1, ⟨1000, 100⟩⟩, ⟨2, 2, ⟨2000, 100⟩⟩] noFail noFail
    (by decide) (by decide) (by decide) (by decide) (by decide)
  exact ⟨(C6_getOrder sysB 5).1.mpr (by decide), h.1, by decide⟩

/-! ## Claim C10: cross-store non-atomicity on rollback -/

/-- C10: when the insert of item `k ≥ 1` is the first to fail, the call
answers StorageError and the rollback removes the order header and all its
item rows, but the products store keeps exactly the adjustments already
issued for the first `k` items: the cross-store state is not atomic on
error. -/
theorem C10_inventory_not_undone (sys : Sys) (items : List ItemReq) (f g : Nat → Bool) (k : Nat)
    (hk : k < items.length)
    (hpre : ∀ j < k + 1, f j = false)
    (hfk : f (k + 1) = true) :
    (createOrder sys items f g).result = COResult.storageError ∧
    (createOrder sys items f g).sys.odb.orders = sys.odb.orders ∧
    (createOrder sys items f g).sys.odb.order_items = sys.odb.order_items ∧
    (createOrder sys items f g).sys.pdb = adjustRun g (items.take k) 0 sys.pdb := by
  have hne : items ≠ [] := by
    intro h
    rw [h] at hk
    exact absurd hk (by simp)
  have he : items.isEmpty = false := by
    cases items with
    | nil => exact absurd rfl hne
    | cons a l => rfl
  have hf0 : f 0 = false := hpre 0 (by omega)
  have hloop := itemsLoop_fail sys.odb.nextOrderId f g items k 0 sys.odb.nextItemId sys.pdb hk
    (fun j hj => by have := hpre (j + 1) (by omega); simpa using this)
    (by simpa using hfk)
  refine ⟨?_, ?_, ?_, ?_⟩ <;> simp [createOrder, he, hf0, hloop]

/-- Witness for C10: two items on products 1 and 2; the second item's
insert fails.  The call answers StorageError, both order tables are
unchanged, yet product 1's stock has already been decremented from 50 to
48 by the first item's adjustment call, while product 2 stays at 100. -/
theorem C10_witness :
    (createOrder sysA [⟨1, 2, ⟨1000, 100⟩⟩, ⟨2, 5, ⟨2000, 100⟩⟩] (failAt 2) noFail).result
      = COResult.storageError ∧
    (createOrder sysA [⟨1, 2, ⟨1000, 100⟩⟩, ⟨2, 5, ⟨2000, 100⟩⟩]
        (failAt 2) noFail).sys.odb.orders = sysA.odb.orders ∧
    (createOrder sysA [⟨1, 2, ⟨1000, 100⟩⟩, ⟨2, 5, ⟨2000, 100⟩⟩]
        (failAt 2) noFail).sys.odb.order_items = sysA.odb.order_items ∧
    (createOrder sysA [⟨1, 2, ⟨1000, 100⟩⟩, ⟨2, 5, ⟨2000, 100⟩⟩]
        (failAt 2) noFail).sys.pdb
      = adjustRun noFail ([⟨1, 2, ⟨1000, 100⟩⟩, ⟨2, 5, ⟨2000, 100⟩⟩].take 1) 0 sysA.pdb ∧
    stockOf (createOrder sysA [⟨1, 2, ⟨1000, 100⟩⟩, ⟨2, 5, ⟨2000, 100⟩⟩]
        (failAt 2) noFail).sys.pdb 1 = some 48 ∧
    stockOf (createOrder sysA [⟨1, 2, ⟨1000, 100⟩⟩, ⟨2, 5, ⟨2000, 100⟩⟩]
        (failAt 2) noFail).sys.pdb 2 = some 100 := by
  have h := C10_inventory_not_undone sysA [⟨1, 2, ⟨1000, 100⟩⟩, ⟨2, 5, ⟨2000, 100⟩⟩]
    (failAt 2) noFail 1 (by decide) (by decide) (by decide)
  exact ⟨h.1, h.2.1, h.2.2.1, h.2.2.2, by decide, by decide⟩
